import Mathlib

/-!
Verification of the gif-to-ascii program (src/main.py) against its
specification.  The Python code is shallowly embedded below:

* Python float arithmetic (the aspect ratio and the pixel scaling) is
  modelled exactly over the rationals; the int() / .astype(int)
  conversions truncate toward zero, modelled by pyInt.
* The Pillow resize and grayscale conversion are external collaborators:
  the resized single-channel image is modelled by an uninterpreted sample
  function lum : row -> col -> luminance value, passed as a parameter.
  Pillow rejects a zero-sized resize target (ValueError: height and width
  must be greater than 0); this check appears in convert_image_to_ascii.
* Python sequence indexing (characters[pixel]) is modelled by pyIndex,
  which supports negative indices and fails (IndexError) out of range.
* User input strings are lists of characters; strip / lower / the regex
  search for the first digit run are modelled on ASCII text, the only
  text the claims mention.
-/

namespace GifAscii

/-- Frame of ascii art: a list of rows of characters
(the Python code builds a list of strings). -/
abbrev AsciiFrame := List (List Char)

/-- Python int() applied to an exact rational: truncation toward zero
(the numerator tdiv the positive denominator). -/
def pyInt (q : ℚ) : ℤ := q.num.tdiv q.den

/-- The index a Python sequence lookup actually uses: negative indices
count from the end of the sequence. -/
def pyAdjIdx (len : ℕ) (i : ℤ) : ℤ := if i < 0 then i + len else i

/-- Python sequence indexing s[i]: negative indices count from the end,
out-of-range indexing raises IndexError (modelled as none). -/
def pyIndex (l : List Char) (i : ℤ) : Option Char :=
  if h : 0 ≤ pyAdjIdx l.length i ∧ pyAdjIdx l.length i < l.length then
    some (l.get ⟨(pyAdjIdx l.length i).toNat, by omega⟩)
  else none

/-- The candidate character-grid height of src/main.py lines 37 and 40:
int(ar * target_width * 0.5). -/
def candHeight (ar : ℚ) (w : ℕ) : ℤ := pyInt (ar * (w : ℚ) * (1/2))

/-- The width-decrement loop of src/main.py lines 38-40:
while new_height > terminal_max_height: target_width -= 1; recompute.
For a nonnegative height bound the Python loop can never pass below
width 0 (at width 0 the candidate height is 0, which does not exceed the
bound), so recursion on the width embeds the loop.  Returns the final
(target_width, new_height) pair. -/
def fitLoop (ar : ℚ) (maxH : ℤ) : ℕ → ℕ × ℤ
  | 0 => (0, candHeight ar 0)
  | w + 1 =>
    if maxH < candHeight ar (w + 1) then fitLoop ar maxH w
    else (w + 1, candHeight ar (w + 1))

/-- The width the converter resizes to, after the aspect-fit loop. -/
def fittedWidth (fw fh w0 : ℕ) (maxH : ℤ) : ℕ :=
  (fitLoop ((fh : ℚ) / (fw : ℚ)) maxH w0).1

/-- The height the converter resizes to: the loop result clamped to a
minimum of 1 (src/main.py lines 44-48). -/
def fittedHeight (fw fh w0 : ℕ) (maxH : ℤ) : ℕ :=
  let h0 := (fitLoop ((fh : ℚ) / (fw : ℚ)) maxH w0).2
  if h0 ≤ 0 then 1 else h0.toNat

/-- Embedding of src/main.py line 59: scale a pixel value (0-255) to a character
index, (p / 255 * (num_chars - 1)).astype(int).  num_chars - 1 is Python
int arithmetic, so it is -1 for an empty ramp. -/
def scaledIndex (N : ℕ) (p : ℕ) : ℤ :=
  pyInt ((p : ℚ) / 255 * (((N : ℤ) - 1 : ℤ) : ℚ))

/-- Embedding of src/main.py line 62: characters[pixel] after scaling. -/
def asciiPixel (chars : List Char) (p : ℕ) : Option Char :=
  pyIndex chars (scaledIndex chars.length p)

/-- The character the converter emits for luminance p, as a total
function (meaningful when the ramp is nonempty and p is at most 255, in
which case the scaled index is in range and asciiPixel returns exactly
this character). -/
def rampChar (chars : List Char) (p : ℕ) : Char :=
  chars.getD (scaledIndex chars.length p).toNat ' '

/-- One row of the ascii art: join of characters[pixel] over the row of
pixel values; the first out-of-range lookup aborts (IndexError). -/
def buildRow (chars : List Char) : List ℕ → Option (List Char)
  | [] => some []
  | p :: ps =>
    match asciiPixel chars p, buildRow chars ps with
    | some c, some cs => some (c :: cs)
    | _, _ => none

/-- The list comprehension of src/main.py line 62 over all rows. -/
def buildGrid (chars : List Char) : List (List ℕ) → Option AsciiFrame
  | [] => some []
  | r :: rs =>
    match buildRow chars r, buildGrid chars rs with
    | some row, some rows => some (row :: rows)
    | _, _ => none

/-- The resized grayscale pixel grid: h rows of w samples drawn from the
external resample, row-major as numpy iterates it. -/
def lumGrid (lum : ℕ → ℕ → ℕ) (w h : ℕ) : List (List ℕ) :=
  (List.range h).map (fun r => (List.range w).map (lum r))

/-- Failure modes of convert_image_to_ascii past the open step:
valueError is the Pillow resize rejection of a zero-sized target,
indexError is an out-of-range characters[pixel] lookup.  Both are
uncaught exceptions in the Python code (only Image.open is guarded). -/
inductive ConvError : Type
  | valueError : ConvError
  | indexError : ConvError
deriving DecidableEq

/-- Embedding of src/main.py lines 34-63, convert_image_to_ascii after the image has
been opened: fw, fh are the source dimensions, w0 the requested width,
maxH the terminal height bound, lum the externally resampled grayscale
image.  Computes ar = fh / fw, runs the aspect-fit loop, clamps the
height to at least 1, resizes (Pillow raises ValueError when the target
width or height is 0), then maps every sample through the ramp. -/
def convert_image_to_ascii (lum : ℕ → ℕ → ℕ) (chars : List Char)
    (fw fh w0 : ℕ) (maxH : ℤ) : Except ConvError AsciiFrame :=
  let w := fittedWidth fw fh w0 maxH
  let h := fittedHeight fw fh w0 maxH
  if w = 0 ∨ h = 0 then .error .valueError
  else
    match buildGrid chars (lumGrid lum w h) with
    | some g => .ok g
    | none => .error .indexError

/-- Python str.isspace for the ASCII range, as used by str.strip. -/
def pyIsSpace (c : Char) : Bool :=
  c == ' ' || c == '\t' || c == '\n' || c == Char.ofNat 11 ||
    c == Char.ofNat 12 || c == '\r'

/-- Python str.strip(): remove leading and trailing whitespace. -/
def pyStrip (s : List Char) : List Char :=
  ((s.dropWhile pyIsSpace).reverse.dropWhile pyIsSpace).reverse

/-- Embedding of src/main.py line 185: input().strip().lower() on ASCII text. -/
def pyStripLower (s : List Char) : List Char :=
  (pyStrip s).map Char.toLower

/-- The regex search of src/main.py line 190: the first maximal run of
digits in the input, if any. -/
def firstDigitRun : List Char → Option (List Char)
  | [] => none
  | c :: cs =>
    if c.isDigit then some (c :: cs.takeWhile Char.isDigit)
    else firstDigitRun cs

/-- Python int() on a string of decimal digits. -/
def digitsToNat (ds : List Char) : ℕ :=
  ds.foldl (fun a c => 10 * a + (c.toNat - 48)) 0

/-- Embedding of src/main.py lines 189-192: repeat count 1 by default, otherwise the
value of the first digit run. -/
def parseRepeat (s : List Char) : ℕ :=
  match firstDigitRun s with
  | none => 1
  | some ds => digitsToNat ds

/-- Embedding of src/main.py lines 194-199: the nested playback loops render the
whole cache once per repeat unit; the trace of rendered frames. -/
def playTrace {α : Type} : ℕ → List α → List α
  | 0, _ => []
  | k + 1, cache => cache ++ playTrace k cache

/-- One iteration of the interactive while loop, src/main.py lines
183-205: read input, quit on q, parse the repeat count, run the playback
loops.  intr = some n models a KeyboardInterrupt delivered after n
renders (caught at line 200, breaking the loop); intr = none is an
uninterrupted iteration.  Returns the trace of rendered frames and
whether the loop continues to await input (false means the loop broke,
the Stopped state). -/
def loopIter {α : Type} (cache : List α) (inp : List Char)
    (intr : Option ℕ) : List α × Bool :=
  if pyStripLower inp = ['q'] then ([], false)
  else
    let k := parseRepeat (pyStripLower inp)
    match intr with
    | none => (playTrace k cache, true)
    | some n => ((playTrace k cache).take n, false)

/-- Embedding of src/main.py lines 161-173: build the cache of converted frames,
appending each result that is truthy (a nonempty frame list; a frame
that failed conversion is None, skipped with a warning). -/
def buildCache : List (Option AsciiFrame) → List AsciiFrame
  | [] => []
  | none :: rest => buildCache rest
  | some f :: rest =>
    if f.isEmpty then buildCache rest else f :: buildCache rest

/-! ### Arithmetic facts about the Python primitives -/

theorem pyInt_eq_floor (q : ℚ) (h : 0 ≤ q) : pyInt q = ⌊q⌋ := by
  rw [Rat.floor_def, pyInt]
  exact Int.tdiv_eq_ediv (Rat.num_nonneg.mpr h) (Int.natCast_nonneg q.den)

theorem pyInt_zero : pyInt 0 = 0 := by with_unfolding_all rfl

theorem candHeight_zero (ar : ℚ) : candHeight ar 0 = 0 := by
  simp [candHeight, pyInt_zero]

/-- The aspect-fit loop never exits with a height above the bound, for a
nonnegative bound. -/
theorem fitLoop_snd_le (ar : ℚ) (maxH : ℤ) (hm : 0 ≤ maxH) :
    ∀ w : ℕ, (fitLoop ar maxH w).2 ≤ maxH := by
  intro w
  induction w with
  | zero => simpa [fitLoop, candHeight_zero] using hm
  | succ n ih =>
    rw [fitLoop]
    split
    · exact ih
    · next h => simpa using le_of_not_lt h

/-- The clamp at src/main.py lines 44-48 guarantees at least one row. -/
theorem fittedHeight_pos (fw fh w0 : ℕ) (maxH : ℤ) :
    1 ≤ fittedHeight fw fh w0 maxH := by
  rw [fittedHeight]
  split
  · exact le_refl 1
  · next h => omega

/-- Claim C1: for every input image with positive width and height, every
positive target width and every positive height bound, the height chosen
by the aspect-fit computation (candidate height, width-decrement loop,
clamp to 1) lies in the interval from 1 to the bound. -/
theorem C1_chosen_height_in_bounds (fw fh w0 : ℕ) (maxH : ℤ)
    (hfw : 1 ≤ fw) (hfh : 1 ≤ fh) (hw0 : 1 ≤ w0) (hm : 1 ≤ maxH) :
    1 ≤ fittedHeight fw fh w0 maxH ∧
      (fittedHeight fw fh w0 maxH : ℤ) ≤ maxH := by
  refine ⟨fittedHeight_pos _ _ _ _, ?_⟩
  have hle := fitLoop_snd_le ((fh : ℚ) / (fw : ℚ)) maxH (by omega) w0
  rw [fittedHeight]
  split
  · next h => simpa using hm
  · next h => rw [Int.toNat_of_nonneg (by omega)]; exact hle

theorem C1_chosen_height_in_bounds_witness :
    1 ≤ fittedHeight 10 100 4 3 ∧ (fittedHeight 10 100 4 3 : ℤ) ≤ 3 :=
  C1_chosen_height_in_bounds 10 100 4 3 (by norm_num) (by norm_num)
    (by norm_num) (by norm_num)

/-! ### The luminance quantization -/

theorem scaledIndex_val_nonneg (N p : ℕ) (hN : 1 ≤ N) :
    (0 : ℚ) ≤ (p : ℚ) / 255 * (((N : ℤ) - 1 : ℤ) : ℚ) := by
  have hc : (0 : ℚ) ≤ (((N : ℤ) - 1 : ℤ) : ℚ) := by
    have h1 : (0 : ℤ) ≤ (N : ℤ) - 1 := by omega
    exact_mod_cast h1
  exact mul_nonneg (div_nonneg (Nat.cast_nonneg p) (by norm_num)) hc

theorem scaledIndex_nonneg (N p : ℕ) (hN : 1 ≤ N) : 0 ≤ scaledIndex N p := by
  have hq := scaledIndex_val_nonneg N p hN
  rw [scaledIndex, pyInt_eq_floor _ hq]
  exact Int.floor_nonneg.mpr hq

theorem scaledIndex_le_sub_one (N p : ℕ) (hN : 1 ≤ N) (hp : p ≤ 255) :
    scaledIndex N p ≤ (N : ℤ) - 1 := by
  have hc : (0 : ℚ) ≤ (((N : ℤ) - 1 : ℤ) : ℚ) := by
    have h1 : (0 : ℤ) ≤ (N : ℤ) - 1 := by omega
    exact_mod_cast h1
  have hq : (p : ℚ) / 255 * (((N : ℤ) - 1 : ℤ) : ℚ) ≤ (((N : ℤ) - 1 : ℤ) : ℚ) := by
    have h1 : (p : ℚ) / 255 ≤ 1 := by
      rw [div_le_one (by norm_num)]
      exact_mod_cast hp
    calc (p : ℚ) / 255 * (((N : ℤ) - 1 : ℤ) : ℚ)
        ≤ 1 * (((N : ℤ) - 1 : ℤ) : ℚ) := mul_le_mul_of_nonneg_right h1 hc
      _ = (((N : ℤ) - 1 : ℤ) : ℚ) := one_mul _
  rw [scaledIndex, pyInt_eq_floor _ (scaledIndex_val_nonneg N p hN)]
  calc ⌊(p : ℚ) / 255 * (((N : ℤ) - 1 : ℤ) : ℚ)⌋
      ≤ ⌊(((N : ℤ) - 1 : ℤ) : ℚ)⌋ := Int.floor_le_floor hq
    _ = (N : ℤ) - 1 := Int.floor_intCast _

theorem scaledIndex_black (N : ℕ) : scaledIndex N 0 = 0 := by
  have h0 : ((0 : ℕ) : ℚ) / 255 * (((N : ℤ) - 1 : ℤ) : ℚ) = 0 := by norm_num
  rw [scaledIndex, h0, pyInt_zero]

theorem scaledIndex_white (N : ℕ) (hN : 1 ≤ N) :
    scaledIndex N 255 = (N : ℤ) - 1 := by
  have hc : (0 : ℚ) ≤ (((N : ℤ) - 1 : ℤ) : ℚ) := by
    have h1 : (0 : ℤ) ≤ (N : ℤ) - 1 := by omega
    exact_mod_cast h1
  have h0 : ((255 : ℕ) : ℚ) / 255 * (((N : ℤ) - 1 : ℤ) : ℚ) =
      (((N : ℤ) - 1 : ℤ) : ℚ) := by norm_num
  rw [scaledIndex, h0, pyInt_eq_floor _ hc, Int.floor_intCast]

/-- Claim C10: the luminance-to-index quantization is monotone in the
luminance for every nonempty ramp: darker pixels never map past lighter
ones. -/
theorem C10_scaled_index_monotone (N p q : ℕ) (hN : 1 ≤ N) (hpq : p ≤ q) :
    scaledIndex N p ≤ scaledIndex N q := by
  have hc : (0 : ℚ) ≤ (((N : ℤ) - 1 : ℤ) : ℚ) := by
    have h1 : (0 : ℤ) ≤ (N : ℤ) - 1 := by omega
    exact_mod_cast h1
  rw [scaledIndex, scaledIndex, pyInt_eq_floor _ (scaledIndex_val_nonneg N p hN),
    pyInt_eq_floor _ (scaledIndex_val_nonneg N q hN)]
  apply Int.floor_le_floor
  apply mul_le_mul_of_nonneg_right _ hc
  apply div_le_div_of_nonneg_right ?_ (by norm_num)
  exact_mod_cast hpq

theorem C10_scaled_index_monotone_witness :
    scaledIndex 10 10 ≤ scaledIndex 10 200 :=
  C10_scaled_index_monotone 10 10 200 (by norm_num) (by norm_num)

/-! ### Python indexing -/

theorem pyIndex_nil (i : ℤ) : pyIndex [] i = none := by
  rw [pyIndex, dif_neg]
  simp only [List.length_nil, Nat.cast_zero]
  rintro ⟨h0, h1⟩
  omega

theorem pyIndex_mem (l : List Char) (i : ℤ) (c : Char)
    (h : pyIndex l i = some c) : c ∈ l := by
  rw [pyIndex] at h
  split at h
  · injection h with h'
    exact h' ▸ List.get_mem _ _ _
  · cases h

theorem pyIndex_eq_getD (l : List Char) (i : ℤ) (d : Char)
    (h0 : 0 ≤ i) (h1 : i < l.length) :
    pyIndex l i = some (l.getD i.toNat d) := by
  have hadj : pyAdjIdx l.length i = i := if_neg (by omega)
  rw [pyIndex]
  simp only [hadj]
  rw [dif_pos ⟨h0, h1⟩]
  congr 1
  rw [List.get_eq_getElem, List.getD_eq_getElem?_getD,
    List.getElem?_eq_getElem (show i.toNat < l.length by omega), Option.getD_some]

/-! ### The emitted character -/

theorem rampChar_mem (chars : List Char) (p : ℕ) (hc : chars ≠ []) (hp : p ≤ 255) :
    rampChar chars p ∈ chars := by
  have hN : 1 ≤ chars.length := List.length_pos.mpr hc
  have h0 := scaledIndex_nonneg chars.length p hN
  have h1 := scaledIndex_le_sub_one chars.length p hN hp
  rw [rampChar, List.getD_eq_getElem?_getD,
    List.getElem?_eq_getElem
      (show (scaledIndex chars.length p).toNat < chars.length by omega),
    Option.getD_some]
  exact List.getElem_mem _

theorem asciiPixel_eq_rampChar (chars : List Char) (p : ℕ)
    (hc : chars ≠ []) (hp : p ≤ 255) :
    asciiPixel chars p = some (rampChar chars p) := by
  have hN : 1 ≤ chars.length := List.length_pos.mpr hc
  have h0 := scaledIndex_nonneg chars.length p hN
  have h1 := scaledIndex_le_sub_one chars.length p hN hp
  rw [asciiPixel, rampChar]
  exact pyIndex_eq_getD _ _ _ h0 (by omega)

theorem asciiPixel_mem (chars : List Char) (p : ℕ) (c : Char)
    (h : asciiPixel chars p = some c) : c ∈ chars := by
  rw [asciiPixel] at h
  exact pyIndex_mem _ _ _ h

theorem rampChar_black (chars : List Char) (hc : chars ≠ []) :
    rampChar chars 0 = chars.head hc := by
  rw [rampChar, scaledIndex_black]
  cases chars with
  | nil => exact absurd rfl hc
  | cons c cs => rfl

theorem rampChar_white (chars : List Char) (hc : chars ≠ []) :
    rampChar chars 255 = chars.getLast hc := by
  have hN : 1 ≤ chars.length := List.length_pos.mpr hc
  rw [rampChar, scaledIndex_white _ hN, List.getLast_eq_getElem]
  have ht : ((chars.length : ℤ) - 1).toNat = chars.length - 1 := by omega
  rw [ht, List.getD_eq_getElem?_getD,
    List.getElem?_eq_getElem (show chars.length - 1 < chars.length by omega),
    Option.getD_some]

/-! ### Grid construction -/

theorem buildRow_length (chars : List Char) :
    ∀ ps r, buildRow chars ps = some r → r.length = ps.length := by
  intro ps
  induction ps with
  | nil =>
    intro r h
    rw [buildRow] at h
    injection h with h'
    rw [← h']
    rfl
  | cons p ps ih =>
    intro r h
    rw [buildRow] at h
    split at h
    · next c cs heq1 heq2 =>
      injection h with h'
      rw [← h', List.length_cons, List.length_cons, ih cs heq2]
    · cases h

theorem buildRow_mem (chars : List Char) :
    ∀ ps r, buildRow chars ps = some r → ∀ c ∈ r, c ∈ chars := by
  intro ps
  induction ps with
  | nil =>
    intro r h
    rw [buildRow] at h
    injection h with h'
    rw [← h']
    intro c hc
    cases hc
  | cons p ps ih =>
    intro r h
    rw [buildRow] at h
    split at h
    · next c cs heq1 heq2 =>
      injection h with h'
      rw [← h']
      intro x hx
      rcases List.mem_cons.mp hx with rfl | hx
      · exact asciiPixel_mem _ _ _ heq1
      · exact ih cs heq2 x hx
    · cases h

theorem buildRow_eq_map (chars : List Char) (hc : chars ≠ []) :
    ∀ ps, (∀ p ∈ ps, p ≤ 255) →
      buildRow chars ps = some (ps.map (rampChar chars)) := by
  intro ps
  induction ps with
  | nil => intro _; rfl
  | cons p ps ih =>
    intro hps
    rw [buildRow, asciiPixel_eq_rampChar chars p hc (hps p (by simp)),
      ih (fun x hx => hps x (by simp [hx]))]
    rfl

theorem buildGrid_length (chars : List Char) :
    ∀ rows g, buildGrid chars rows = some g → g.length = rows.length := by
  intro rows
  induction rows with
  | nil =>
    intro g h
    rw [buildGrid] at h
    injection h with h'
    rw [← h']
    rfl
  | cons ps rest ih =>
    intro g h
    rw [buildGrid] at h
    split at h
    · next row rows' heq1 heq2 =>
      injection h with h'
      rw [← h', List.length_cons, List.length_cons, ih rows' heq2]
    · cases h

theorem buildGrid_mem_row (chars : List Char) :
    ∀ rows g, buildGrid chars rows = some g →
      ∀ row ∈ g, ∃ ps ∈ rows, buildRow chars ps = some row := by
  intro rows
  induction rows with
  | nil =>
    intro g h
    rw [buildGrid] at h
    injection h with h'
    rw [← h']
    intro row hrow
    cases hrow
  | cons ps rest ih =>
    intro g h
    rw [buildGrid] at h
    split at h
    · next row rows' heq1 heq2 =>
      injection h with h'
      rw [← h']
      intro x hx
      rcases List.mem_cons.mp hx with rfl | hx
      · exact ⟨ps, by simp, heq1⟩
      · obtain ⟨ps', hmem, hbr⟩ := ih rows' heq2 x hx
        exact ⟨ps', by simp [hmem], hbr⟩
    · cases h

theorem buildGrid_eq_map (chars : List Char) (hc : chars ≠ []) :
    ∀ rows, (∀ ps ∈ rows, ∀ p ∈ ps, p ≤ 255) →
      buildGrid chars rows =
        some (rows.map (fun ps => ps.map (rampChar chars))) := by
  intro rows
  induction rows with
  | nil => intro _; rfl
  | cons ps rest ih =>
    intro hrows
    rw [buildGrid, buildRow_eq_map chars hc ps (hrows ps (by simp)),
      ih (fun x hx => hrows x (by simp [hx]))]
    rfl

theorem buildRow_empty_ramp (p : ℕ) (ps : List ℕ) :
    buildRow [] (p :: ps) = none := by
  rw [buildRow, asciiPixel, pyIndex_nil]

theorem buildGrid_empty_ramp (p : ℕ) (ps : List ℕ) (rest : List (List ℕ)) :
    buildGrid [] ((p :: ps) :: rest) = none := by
  rw [buildGrid, buildRow_empty_ramp]

/-! ### The resampled grid -/

theorem lumGrid_length (lum : ℕ → ℕ → ℕ) (w h : ℕ) :
    (lumGrid lum w h).length = h := by
  simp [lumGrid]

theorem lumGrid_row_length (lum : ℕ → ℕ → ℕ) (w h : ℕ) :
    ∀ ps ∈ lumGrid lum w h, ps.length = w := by
  intro ps hps
  rw [lumGrid] at hps
  obtain ⟨r, hr, rfl⟩ := List.mem_map.mp hps
  simp

theorem lumGrid_le (lum : ℕ → ℕ → ℕ) (w h : ℕ)
    (hl : ∀ r c, lum r c ≤ 255) :
    ∀ ps ∈ lumGrid lum w h, ∀ p ∈ ps, p ≤ 255 := by
  intro ps hps p hp
  rw [lumGrid] at hps
  obtain ⟨r, hr, rfl⟩ := List.mem_map.mp hps
  obtain ⟨c, hc, rfl⟩ := List.mem_map.mp hp
  exact hl r c

/-! ### The converter -/

theorem convert_ok_elim (lum : ℕ → ℕ → ℕ) (chars : List Char)
    (fw fh w0 : ℕ) (maxH : ℤ) (g : AsciiFrame)
    (hg : convert_image_to_ascii lum chars fw fh w0 maxH = .ok g) :
    fittedWidth fw fh w0 maxH ≠ 0 ∧
      buildGrid chars
        (lumGrid lum (fittedWidth fw fh w0 maxH) (fittedHeight fw fh w0 maxH)) =
        some g := by
  by_cases hw : fittedWidth fw fh w0 maxH = 0 ∨ fittedHeight fw fh w0 maxH = 0
  · rw [convert_image_to_ascii] at hg
    rw [if_pos hw] at hg
    cases hg
  · rw [convert_image_to_ascii] at hg
    rw [if_neg hw] at hg
    push_neg at hw
    refine ⟨hw.1, ?_⟩
    split at hg
    · next g' heq =>
      injection hg with h'
      rw [← h']
      exact heq
    · cases hg

/-- Claim C8: every AsciiFrame produced by the converter is a
rectangular grid: all rows have identical length, and there is at least
one row of at least one character. -/
theorem C8_frames_rectangular (lum : ℕ → ℕ → ℕ) (chars : List Char)
    (fw fh w0 : ℕ) (maxH : ℤ) (g : AsciiFrame)
    (hg : convert_image_to_ascii lum chars fw fh w0 maxH = .ok g) :
    1 ≤ g.length ∧
      (∀ row ∈ g, row.length = fittedWidth fw fh w0 maxH) ∧
      (∀ row ∈ g, 1 ≤ row.length) ∧
      ∀ r1 ∈ g, ∀ r2 ∈ g, r1.length = r2.length := by
  obtain ⟨hw, hbg⟩ := convert_ok_elim lum chars fw fh w0 maxH g hg
  have hrow : ∀ row ∈ g, row.length = fittedWidth fw fh w0 maxH := by
    intro row hrowmem
    obtain ⟨ps, hps, hbr⟩ := buildGrid_mem_row chars _ g hbg row hrowmem
    rw [buildRow_length chars ps row hbr, lumGrid_row_length lum _ _ ps hps]
  refine ⟨?_, hrow, ?_, ?_⟩
  · rw [buildGrid_length chars _ g hbg, lumGrid_length]
    exact fittedHeight_pos fw fh w0 maxH
  · intro row hr
    rw [hrow row hr]
    omega
  · intro r1 h1 r2 h2
    rw [hrow r1 h1, hrow r2 h2]

theorem C8_frames_rectangular_witness :
    1 ≤ (List.replicate 5 (List.replicate 10 '@') : AsciiFrame).length ∧
      (∀ row ∈ (List.replicate 5 (List.replicate 10 '@') : AsciiFrame),
        row.length = fittedWidth 10 10 10 10) ∧
      (∀ row ∈ (List.replicate 5 (List.replicate 10 '@') : AsciiFrame),
        1 ≤ row.length) ∧
      ∀ r1 ∈ (List.replicate 5 (List.replicate 10 '@') : AsciiFrame),
        ∀ r2 ∈ (List.replicate 5 (List.replicate 10 '@') : AsciiFrame),
          r1.length = r2.length :=
  C8_frames_rectangular (fun _ _ => 0)
    ['@', '%', '#', '*', '+', '=', '-', ':', '.', ' '] 10 10 10 10
    (List.replicate 5 (List.replicate 10 '@'))
    (by with_unfolding_all rfl)

/-- Claim C2: for a nonempty ramp of length N and luminance samples in
0..255, the converter emits exactly ramp[floor(p / 255 * (N - 1))] for
each sample (the grid is the pointwise rampChar image of the resampled
luminance grid), the scaled index always lies in 0..N-1, every character
of the output is a ramp character, luminance 0 maps to the first ramp
character and luminance 255 to the last. -/
theorem C2_ramp_quantization (lum : ℕ → ℕ → ℕ) (chars : List Char)
    (fw fh w0 : ℕ) (maxH : ℤ) (g : AsciiFrame)
    (hc : chars ≠ []) (hl : ∀ r c, lum r c ≤ 255)
    (hg : convert_image_to_ascii lum chars fw fh w0 maxH = .ok g) :
    g = (lumGrid lum (fittedWidth fw fh w0 maxH)
          (fittedHeight fw fh w0 maxH)).map
        (fun ps => ps.map (rampChar chars)) ∧
      (∀ p : ℕ, 0 ≤ scaledIndex chars.length p) ∧
      (∀ p : ℕ, p ≤ 255 → scaledIndex chars.length p ≤ (chars.length : ℤ) - 1) ∧
      (∀ row ∈ g, ∀ ch ∈ row, ch ∈ chars) ∧
      rampChar chars 0 = chars.head hc ∧
      rampChar chars 255 = chars.getLast hc := by
  have hN : 1 ≤ chars.length := List.length_pos.mpr hc
  obtain ⟨hw, hbg⟩ := convert_ok_elim lum chars fw fh w0 maxH g hg
  have hmap := buildGrid_eq_map chars hc
    (lumGrid lum (fittedWidth fw fh w0 maxH) (fittedHeight fw fh w0 maxH))
    (lumGrid_le lum _ _ hl)
  rw [hmap] at hbg
  injection hbg with hbg'
  refine ⟨hbg'.symm, fun p => scaledIndex_nonneg _ p hN,
    fun p hp => scaledIndex_le_sub_one _ p hN hp, ?_,
    rampChar_black chars hc, rampChar_white chars hc⟩
  intro row hrow ch hch
  rw [← hbg'] at hrow
  obtain ⟨ps, hps, rfl⟩ := List.mem_map.mp hrow
  obtain ⟨p, hp, rfl⟩ := List.mem_map.mp hch
  exact rampChar_mem chars p hc (lumGrid_le lum _ _ hl ps hps p hp)

theorem C2_ramp_quantization_witness :
    (List.replicate 1 (List.replicate 2 ' ') : AsciiFrame) =
        (lumGrid (fun _ _ => 255) (fittedWidth 2 2 2 2)
          (fittedHeight 2 2 2 2)).map
        (fun ps => ps.map
          (rampChar ['@', '%', '#', '*', '+', '=', '-', ':', '.', ' '])) ∧
      (∀ p : ℕ, 0 ≤ scaledIndex
        (['@', '%', '#', '*', '+', '=', '-', ':', '.', ' '] : List Char).length p) ∧
      (∀ p : ℕ, p ≤ 255 → scaledIndex
        (['@', '%', '#', '*', '+', '=', '-', ':', '.', ' '] : List Char).length p ≤
          ((['@', '%', '#', '*', '+', '=', '-', ':', '.', ' '] : List Char).length : ℤ) - 1) ∧
      (∀ row ∈ (List.replicate 1 (List.replicate 2 ' ') : AsciiFrame),
        ∀ ch ∈ row, ch ∈ (['@', '%', '#', '*', '+', '=', '-', ':', '.', ' '] : List Char)) ∧
      rampChar ['@', '%', '#', '*', '+', '=', '-', ':', '.', ' '] 0 =
        (['@', '%', '#', '*', '+', '=', '-', ':', '.', ' '] : List Char).head
          (by decide) ∧
      rampChar ['@', '%', '#', '*', '+', '=', '-', ':', '.', ' '] 255 =
        (['@', '%', '#', '*', '+', '=', '-', ':', '.', ' '] : List Char).getLast
          (by decide) :=
  C2_ramp_quantization (fun _ _ => 255)
    ['@', '%', '#', '*', '+', '=', '-', ':', '.', ' '] 2 2 2 2
    (List.replicate 1 (List.replicate 2 ' '))
    (by decide) (fun r c => by norm_num) (by with_unfolding_all rfl)

/-- Claim C5 counterexample: convert with an empty ramp does not fail
with a dedicated invalid-ramp error.  The Python code never validates
the ramp: at one input the failure is the IndexError of the first
characters[pixel] lookup, at another it is the ValueError of the
zero-width Pillow resize, so the empty-ramp failure is an uncaught
exception whose kind varies with the frame geometry, not a single
ramp-validation error. -/
theorem C5_counterexample :
    convert_image_to_ascii (fun _ _ => 0) [] 10 10 10 10 =
        .error .indexError ∧
      convert_image_to_ascii (fun _ _ => 0) [] 10 100 1 1 =
        .error .valueError := by
  constructor <;> with_unfolding_all rfl

/-- Claim C5 amended: with an empty character ramp the converter always
fails, but never with a ramp-validation error: when the aspect-fit width
is 0 the Pillow resize raises ValueError, and otherwise the first
character lookup raises IndexError. -/
theorem C5_empty_ramp_fails (lum : ℕ → ℕ → ℕ) (fw fh w0 : ℕ) (maxH : ℤ) :
    (fittedWidth fw fh w0 maxH = 0 ∧
      convert_image_to_ascii lum [] fw fh w0 maxH = .error .valueError) ∨
    (1 ≤ fittedWidth fw fh w0 maxH ∧
      convert_image_to_ascii lum [] fw fh w0 maxH = .error .indexError) := by
  by_cases hw : fittedWidth fw fh w0 maxH = 0
  · left
    refine ⟨hw, ?_⟩
    rw [convert_image_to_ascii]
    rw [if_pos (Or.inl hw)]
  · right
    refine ⟨by omega, ?_⟩
    have hh := fittedHeight_pos fw fh w0 maxH
    rw [convert_image_to_ascii]
    rw [if_neg (by push_neg; exact ⟨hw, by omega⟩)]
    obtain ⟨w', hw'⟩ : ∃ w', fittedWidth fw fh w0 maxH = w' + 1 :=
      ⟨fittedWidth fw fh w0 maxH - 1, by omega⟩
    obtain ⟨h', hh'⟩ : ∃ h', fittedHeight fw fh w0 maxH = h' + 1 :=
      ⟨fittedHeight fw fh w0 maxH - 1, by omega⟩
    simp only [hw', hh', lumGrid, List.range_succ_eq_map, List.map_cons]
    rw [buildGrid_empty_ramp]

/-! ### Playback -/

theorem playTrace_length {α : Type} (cache : List α) :
    ∀ k : ℕ, (playTrace k cache).length = k * cache.length := by
  intro k
  induction k with
  | zero => simp [playTrace]
  | succ n ih =>
    rw [playTrace, List.length_append, ih, Nat.succ_mul]
    omega

theorem playTrace_eq_flatten_replicate {α : Type} (cache : List α) :
    ∀ k : ℕ, playTrace k cache = List.flatten (List.replicate k cache) := by
  intro k
  induction k with
  | zero => rfl
  | succ n ih => rw [playTrace, ih, List.replicate_succ, List.flatten_cons]

theorem playTrace_take {α : Type} (cache : List α) (k n : ℕ)
    (hk : 1 ≤ k) (hn : n ≤ cache.length) :
    (playTrace k cache).take n = cache.take n := by
  obtain ⟨k', rfl⟩ : ∃ k', k = k' + 1 := ⟨k - 1, by omega⟩
  rw [playTrace]
  exact List.take_eq_left_iff.mpr (Or.inr hn)

/-- Claim C3: an uninterrupted playback iteration whose input is not the
quit command and whose first digit run parses to k renders the whole
cache once per repeat unit, k times the cache in order, for a total of
k times F render calls, and then continues to await input. -/
theorem C3_repeat_renders_k_times_cache {α : Type} (cache : List α)
    (s : List Char) (k : ℕ)
    (hq : pyStripLower s ≠ ['q'])
    (hk : parseRepeat (pyStripLower s) = k) :
    loopIter cache s none = (playTrace k cache, true) ∧
      (playTrace k cache).length = k * cache.length ∧
      playTrace k cache = List.flatten (List.replicate k cache) := by
  refine ⟨?_, playTrace_length cache k, playTrace_eq_flatten_replicate cache k⟩
  rw [loopIter, if_neg hq, hk]

theorem C3_repeat_renders_k_times_cache_witness :
    loopIter ([7, 8] : List ℕ) ['3'] none = (playTrace 3 [7, 8], true) ∧
      (playTrace 3 ([7, 8] : List ℕ)).length = 3 * ([7, 8] : List ℕ).length ∧
      playTrace 3 ([7, 8] : List ℕ) = List.flatten (List.replicate 3 [7, 8]) :=
  C3_repeat_renders_k_times_cache [7, 8] ['3'] 3 (by decide) (by decide)

/-- Claim C7: any input that equals q after trimming surrounding
whitespace and lowercasing makes the controller stop with zero render
calls, whether or not an interrupt also arrives. -/
theorem C7_quit_renders_nothing {α : Type} (cache : List α)
    (s : List Char) (intr : Option ℕ)
    (hq : pyStripLower s = ['q']) :
    loopIter cache s intr = ([], false) := by
  rw [loopIter, if_pos hq]

theorem C7_quit_renders_nothing_witness :
    loopIter ([1, 2] : List ℕ) [' ', 'Q', ' '] none = ([], false) :=
  C7_quit_renders_nothing [1, 2] [' ', 'Q', ' '] none (by decide)

/-- Claim C9: a cancellation delivered during playback after n of the F
cached frames have been rendered stops the controller: the rendered
trace is exactly the first n cache frames (exactly n render calls, so no
later frame of this or any remaining repeat unit is rendered) and the
loop breaks instead of returning to await input, so playback never
resumes automatically. -/
theorem C9_interrupt_stops_playback {α : Type} (cache : List α)
    (s : List Char) (n : ℕ)
    (hq : pyStripLower s ≠ ['q'])
    (hk : 1 ≤ parseRepeat (pyStripLower s))
    (hn : n ≤ cache.length) :
    loopIter cache s (some n) = (cache.take n, false) ∧
      (cache.take n).length = n := by
  constructor
  · rw [loopIter, if_neg hq]
    show ((playTrace (parseRepeat (pyStripLower s)) cache).take n, false) =
      (cache.take n, false)
    rw [playTrace_take cache _ n hk hn]
  · rw [List.length_take]
    omega

theorem C9_interrupt_stops_playback_witness :
    loopIter ([10, 20, 30] : List ℕ) ['5'] (some 2) = ([10, 20], false) ∧
      (([10, 20, 30] : List ℕ).take 2).length = 2 :=
  C9_interrupt_stops_playback [10, 20, 30] ['5'] 2 (by decide) (by decide)
    (by decide)

/-! ### The frame cache -/

theorem buildCache_append (a b : List (Option AsciiFrame)) :
    buildCache (a ++ b) = buildCache a ++ buildCache b := by
  induction a with
  | nil => rfl
  | cons x rest ih =>
    cases x with
    | none => simpa [buildCache] using ih
    | some f =>
      rw [List.cons_append, buildCache, buildCache]
      split
      · rw [ih]
      · rw [ih, List.cons_append]

theorem buildCache_all_converted (l : List (Option AsciiFrame))
    (h : ∀ x ∈ l, ∃ f, x = some f ∧ f ≠ []) :
    buildCache l = l.filterMap id ∧ (l.filterMap id).length = l.length := by
  induction l with
  | nil => exact ⟨rfl, rfl⟩
  | cons x rest ih =>
    obtain ⟨f, rfl, hf⟩ := h x (by simp)
    obtain ⟨ih1, ih2⟩ := ih (fun y hy => h y (by simp [hy]))
    constructor
    · rw [buildCache, if_neg (by simpa [List.isEmpty_iff] using hf), ih1]
      simp [List.filterMap_cons]
    · simp [List.filterMap_cons, ih2]

/-- Claim C6: building the cache from a frame sequence in which exactly
one frame failed conversion (and every other frame converted to a
nonempty frame) yields, without any abort, the successful frames in
their original order: one fewer than the input count, and an empty cache
only when the failed frame was the only frame. -/
theorem C6_cache_skips_failed_frame (l1 l2 : List (Option AsciiFrame))
    (h1 : ∀ x ∈ l1, ∃ f, x = some f ∧ f ≠ [])
    (h2 : ∀ x ∈ l2, ∃ f, x = some f ∧ f ≠ []) :
    buildCache (l1 ++ none :: l2) = l1.filterMap id ++ l2.filterMap id ∧
      (buildCache (l1 ++ none :: l2)).length + 1 =
        (l1 ++ none :: l2).length ∧
      (buildCache (l1 ++ none :: l2) = [] → l1 = [] ∧ l2 = []) := by
  obtain ⟨e1, len1⟩ := buildCache_all_converted l1 h1
  obtain ⟨e2, len2⟩ := buildCache_all_converted l2 h2
  have hmain : buildCache (l1 ++ none :: l2) =
      l1.filterMap id ++ l2.filterMap id := by
    rw [buildCache_append, ← e1, ← e2]
    congr 1
  refine ⟨hmain, ?_, ?_⟩
  · rw [hmain, List.length_append, List.length_append, List.length_cons,
      len1, len2]
    omega
  · intro hempty
    rw [hmain] at hempty
    obtain ⟨hf1, hf2⟩ := List.append_eq_nil.mp hempty
    constructor
    · have := len1
      rw [hf1] at this
      simpa using List.length_eq_zero.mp this.symm
    · have := len2
      rw [hf2] at this
      simpa using List.length_eq_zero.mp this.symm

theorem C6_cache_skips_failed_frame_witness :
    buildCache ([some [['a']]] ++ none :: [some [['b']]]) =
        ([some [['a']]] : List (Option AsciiFrame)).filterMap id ++
          ([some [['b']]] : List (Option AsciiFrame)).filterMap id ∧
      (buildCache ([some [['a']]] ++ none :: [some [['b']]])).length + 1 =
        (([some [['a']]] : List (Option AsciiFrame)) ++
          none :: [some [['b']]]).length ∧
      (buildCache ([some [['a']]] ++ none :: [some [['b']]]) = [] →
        ([some [['a']]] : List (Option AsciiFrame)) = [] ∧
          ([some [['b']]] : List (Option AsciiFrame)) = []) :=
  C6_cache_skips_failed_frame [some [['a']]] [some [['b']]]
    (fun x hx => ⟨[['a']], by simpa using hx, by decide⟩)
    (fun x hx => ⟨[['b']], by simpa using hx, by decide⟩)

/-! ### The repeat-count parser -/

theorem firstDigitRun_digits :
    ∀ s ds, firstDigitRun s = some ds → ∀ c ∈ ds, c.isDigit = true := by
  intro s
  induction s with
  | nil => intro ds h; cases h
  | cons c cs ih =>
    intro ds h
    rw [firstDigitRun] at h
    split at h
    · next hdig =>
      injection h with h'
      rw [← h']
      intro x hx
      rcases List.mem_cons.mp hx with rfl | hx
      · exact hdig
      · exact List.mem_takeWhile_imp hx
    · exact ih ds h

theorem firstDigitRun_ne_nil :
    ∀ s ds, firstDigitRun s = some ds → ds ≠ [] := by
  intro s
  induction s with
  | nil => intro ds h; cases h
  | cons c cs ih =>
    intro ds h
    rw [firstDigitRun] at h
    split at h
    · injection h with h'
      rw [← h']
      simp
    · exact ih ds h

theorem digit_char_toNat_ge (c : Char) (h : c.isDigit = true) :
    48 ≤ c.toNat := by
  simp only [Char.isDigit, Bool.and_eq_true, decide_eq_true_eq, ge_iff_le] at h
  exact UInt32.le_toNat_of_le (by norm_num) h.1

theorem digitsFold_zero :
    ∀ ds : List Char, ∀ a : ℕ, (∀ c ∈ ds, c.isDigit = true) →
      ds.foldl (fun a c => 10 * a + (c.toNat - 48)) a = 0 →
      a = 0 ∧ ∀ c ∈ ds, c = '0' := by
  intro ds
  induction ds with
  | nil =>
    intro a _ h
    refine ⟨by simpa using h, ?_⟩
    intro c hc
    cases hc
  | cons c cs ih =>
    intro a hdig hz
    rw [List.foldl_cons] at hz
    obtain ⟨h1, h2⟩ := ih _ (fun x hx => hdig x (by simp [hx])) hz
    have hge : 48 ≤ c.toNat := digit_char_toNat_ge c (hdig c (by simp))
    have hc0 : c.toNat = 48 := by omega
    have hch : c = '0' := by
      have h48 : Char.ofNat c.toNat = Char.ofNat 48 := by rw [hc0]
      rw [Char.ofNat_toNat] at h48
      rw [h48]
    refine ⟨by omega, ?_⟩
    intro x hx
    rcases List.mem_cons.mp hx with rfl | hx
    · exact hch
    · exact h2 x hx

/-- Claim C4 counterexample: the input 0 parses to repeat count 0, so
the parser does produce a repeat count below 1, contradicting the claim
that for every user input the parsed repeat count is at least 1 (the
code plays the animation zero times on this input). -/
theorem C4_counterexample :
    parseRepeat (pyStripLower ['0']) = 0 ∧
      ¬ 1 ≤ parseRepeat (pyStripLower ['0']) := by
  constructor <;> decide

/-- Claim C4 amended: the repeat-count parser never produces a negative
count, and the only inputs parsed to a count below 1 are those whose
first run of digits consists entirely of the digit 0 (such as the input
0, which yields repeat count 0 and plays zero times); an input with no
digits defaults to repeat count 1. -/
theorem C4_parser_never_below_one_unless_zero_run (s : List Char) :
    1 ≤ parseRepeat s ∨
      ∃ ds, firstDigitRun s = some ds ∧ ds ≠ [] ∧ (∀ c ∈ ds, c = '0') ∧
        parseRepeat s = 0 := by
  rcases hr : firstDigitRun s with _ | ds
  · left
    simp [parseRepeat, hr]
  · rcases Nat.eq_zero_or_pos (digitsToNat ds) with hz | hp
    · right
      refine ⟨ds, rfl, firstDigitRun_ne_nil s ds hr, ?_, ?_⟩
      · exact (digitsFold_zero ds 0 (firstDigitRun_digits s ds hr) hz).2
      · simp only [parseRepeat, hr]
        exact hz
    · left
      simp only [parseRepeat, hr]
      exact hp

end GifAscii
